import Mathlib

/-!
Verification of the knowledge-ingestion and retrieval engine
(`ai_engine.py`, `chunking_engine.py`, `retrieval.py`, `handlers.py`).

Python strings are embedded as `List Char` (`Str`), floats as `ℚ`,
dictionaries with a fixed key set as structures with optional fields, and
the Mongo collections as lists of stored documents in insertion order.
External collaborators (embedding model, MLX generation backend, BM25
library, reranker, Slack client) are oracles carried in an environment
record, so every repository function becomes a pure, executable Lean
function of that environment.
-/

set_option autoImplicit false
set_option maxRecDepth 8000

namespace Brainfish

/-- Python strings, embedded as lists of characters. -/
abbrev Str := List Char

/-- Python `pattern in s` (substring containment) for strings. -/
def containsSub (s pat : Str) : Bool :=
  match s with
  | [] => decide (pat = [])
  | _ :: t => pat.isPrefixOf s || containsSub t pat

/-- Fuelled worker for `replaceAll`; the fuel is the length of the subject,
which bounds the number of steps because each step consumes at least one
character when the pattern is nonempty. -/
def replaceAllFuel (pat rep : Str) : Nat → Str → Str
  | 0, s => s
  | _ + 1, [] => []
  | n + 1, c :: rest =>
    if pat.isPrefixOf (c :: rest) then
      rep ++ replaceAllFuel pat rep n ((c :: rest).drop pat.length)
    else
      c :: replaceAllFuel pat rep n rest

/-- Python `s.replace(pat, rep)`: left-to-right, non-overlapping. -/
def replaceAll (s pat rep : Str) : Str :=
  if pat = [] then s else replaceAllFuel pat rep s.length s

/-- Fuelled worker for `splitOnStr`. -/
def splitOnFuel (pat : Str) : Nat → Str → Str → List Str
  | 0, _, acc => [acc.reverse]
  | _ + 1, [], acc => [acc.reverse]
  | n + 1, c :: rest, acc =>
    if pat.isPrefixOf (c :: rest) then
      acc.reverse :: splitOnFuel pat n ((c :: rest).drop pat.length) []
    else
      splitOnFuel pat n rest (c :: acc)

/-- Python `s.split(pat)` for a nonempty separator string. -/
def splitOnStr (s pat : Str) : List Str :=
  if pat = [] then [s] else splitOnFuel pat s.length s []

/-- Python `s.strip()`: drop whitespace from both ends. -/
def trimStr (s : Str) : Str :=
  ((s.dropWhile Char.isWhitespace).reverse.dropWhile Char.isWhitespace).reverse

/-- Worker for `pySplitWhitespace`, accumulating the current word reversed. -/
def pySplitWsAux : Str → Str → List Str
  | [], acc => if acc = [] then [] else [acc.reverse]
  | c :: rest, acc =>
    if c.isWhitespace then
      if acc = [] then pySplitWsAux rest [] else acc.reverse :: pySplitWsAux rest []
    else
      pySplitWsAux rest (c :: acc)

/-- Python `s.split()` with no argument: split on whitespace runs, dropping
empty pieces. -/
def pySplitWhitespace (s : Str) : List Str := pySplitWsAux s []

/-- Python `s.lower()` (ASCII behaviour of `str.lower`). -/
def toLowerStr (s : Str) : Str := s.map Char.toLower

/-- Python `s.upper()` (ASCII behaviour of `str.upper`). -/
def toUpperStr (s : Str) : Str := s.map Char.toUpper

/-- A regex word character (`\w`): alphanumeric or underscore. -/
def isWordChar (c : Char) : Bool := c.isAlphanum || c = '_'

/-- Worker for `wordRuns`, accumulating the current run reversed. -/
def wordRunsAux : Str → Str → List Str
  | [], acc => if acc = [] then [] else [acc.reverse]
  | c :: rest, acc =>
    if isWordChar c then
      wordRunsAux rest (c :: acc)
    else
      if acc = [] then wordRunsAux rest [] else acc.reverse :: wordRunsAux rest []

/-- Maximal runs of word characters of a string. -/
def wordRuns (s : Str) : List Str := wordRunsAux s []

/-- Whether a maximal word-character run is matched whole by the pattern
`[a-zA-Z][a-zA-Z0-9]*` with `\b` on both sides: it must start with a letter
and contain no underscore. -/
def isRegexWord (r : Str) : Bool :=
  match r with
  | [] => false
  | c :: cs => c.isAlpha && cs.all (fun d => d.isAlpha || d.isDigit)

/-- Semantics of `re.findall(r"\b[a-zA-Z][a-zA-Z0-9]*\b", s)`: the maximal
word-character runs that consist of a letter followed by letters/digits. -/
def findallWordTokens (s : Str) : List Str := (wordRuns s).filter isRegexWord

/-- A position context is a word boundary when the neighbouring character is
absent or not a word character. -/
def boundaryOk (oc : Option Char) : Bool :=
  match oc with
  | none => true
  | some c => !(isWordChar c)

/-- Worker for `hasWholeWord`: `prev` is the character just before the
current position. -/
def hasWholeWordAux (kw : Str) (prev : Option Char) : Str → Bool
  | [] => false
  | c :: rest =>
    (boundaryOk prev && kw.isPrefixOf (c :: rest) &&
      boundaryOk ((c :: rest).drop kw.length).head?) ||
    hasWholeWordAux kw (some c) rest

/-- Semantics of `re.search(rf"\b{re.escape(kw)}\b", s)` for a nonempty
alphanumeric keyword: `kw` occurs in `s` with word boundaries on both
sides. -/
def hasWholeWord (s kw : Str) : Bool := hasWholeWordAux kw none s

/-- Maximum of a list of rationals, `0` for the empty list (the code guards
the empty case separately). -/
def listMax : List ℚ → ℚ
  | [] => 0
  | x :: xs => xs.foldl max x

/-- Stable insertion step of the descending sort. -/
def insertDesc {α : Type} (x : ℚ × α) : List (ℚ × α) → List (ℚ × α)
  | [] => [x]
  | y :: ys => if y.1 ≤ x.1 then x :: y :: ys else y :: insertDesc x ys

/-- Stable descending sort by the first component, the behaviour of
`list.sort(key=lambda x: x[0], reverse=True)`. -/
def sortDesc {α : Type} : List (ℚ × α) → List (ℚ × α)
  | [] => []
  | x :: xs => insertDesc x (sortDesc xs)

/-- Removal of the first element satisfying a predicate — the effect of a
Mongo `delete_one(filter)` on a collection in natural order. -/
def eraseFirstP {α : Type} (p : α → Bool) : List α → List α
  | [] => []
  | x :: xs => if p x then xs else x :: eraseFirstP p xs

/-! ### Data model -/

/-- `ai_engine.analyze_text_with_mlx`: the five worthiness labels. -/
inductive Classification where
  | NOISE | DOCUMENT | BUG | IDEA | FEEDBACK
deriving DecidableEq

/-- The metadata dictionary attached to a stored item.  Each ingestion route
writes a subset of these keys; a key the route does not write is `none`
(respectively the `False` default for the two booleans, matching
`metadata.get(key, False)`). -/
structure Metadata where
  source : Option Str := none
  user : Option Str := none
  ts : Option Str := none
  thread_ts : Option Str := none
  filename : Option Str := none
  chunk_id : Option Nat := none
  itemType : Option Str := none
  source_of_truth : Bool := false
  public : Bool := false
deriving DecidableEq

/-- A stored document as returned by `get_all_knowledge_docs` /
`insert_one`: text, embedding vector and metadata.  A missing or empty
(falsy) `metadata` dict is `none`; a missing `text` reads as `""` and a
missing or empty (falsy) `vector` as `[]`. -/
structure Doc where
  text : Str := []
  vector : List ℚ := []
  metadata : Option Metadata := none
deriving DecidableEq

instance : Inhabited Doc := ⟨{}⟩

/-- A Slack file record; its download/extraction behaviour lives in the
environment oracle `fileText`. -/
structure FileRec where
  name : Str := "file".data
deriving DecidableEq

/-- One message of a fetched Slack thread, as consumed by
`ChunkingEngine.chunk_slack_thread` (`msg.get("user", "Unknown")`,
`msg.get("text", "")`). -/
structure ThreadMsg where
  user : Option Str := none
  text : Str := []
deriving DecidableEq

/-- The normalized inbound message event handled by
`handle_incoming_messages`. -/
structure Message where
  channel : Str
  ts : Str
  text : Str := []
  user : Option Str := none
  thread_ts : Option Str := none
  files : List FileRec := []
  channel_type : Option Str := none
deriving DecidableEq

/-- The mutable process state touched by the handlers: the in-process
dedup set `PROCESSED_MESSAGES` and the two Mongo collections in insertion
order. -/
structure HState where
  processed : List Str := []
  knowledge : List Doc := []
  ideas : List Doc := []
deriving DecidableEq

/-- The external collaborators, folded into one deterministic oracle
record: Mongo availability (`db is not None`), the cached bot user id, the
Slack profile/thread/file APIs, the embedding model, the optional MLX
generation backend (`none` selects the deterministic fallback), the
optional `rank_bm25` lexical backend, the optional pairwise reranker, and
the timestamp Slack assigns to the agent-posted idea message. -/
structure Env where
  dbUp : Bool := true
  botUserId : Str := []
  username : Option Str → Str := fun _ => "unknown".data
  embed : Str → List ℚ := fun _ => []
  mlx : Option (Str → Str) := none
  threadMessages : Str → Str → Option (List ThreadMsg) := fun _ _ => none
  fileText : FileRec → List Str := fun _ => []
  postTs : Str := []
  cosSim : List ℚ → List ℚ → ℚ := fun _ _ => 0
  bm25 : Option (List (List Str) → List Str → List ℚ) := none
  rrScore : Option (Str → Str → ℚ) := none

/-! ### `ai_engine.py`: classification -/

/-- The bug keyword set of the deterministic fallback classifier. -/
def BUG_KEYWORDS : List Str :=
  (["bug", "error", "crash", "fix", "broken"] : List String).map String.data

/-- The idea keyword set of the deterministic fallback classifier. -/
def IDEA_KEYWORDS : List Str :=
  (["idea", "feature", "suggest", "could we", "what if"] : List String).map String.data

/-- The feedback keyword set of the deterministic fallback classifier. -/
def FEEDBACK_KEYWORDS : List Str :=
  (["feedback", "review", "opinion", "think"] : List String).map String.data

/-- The deterministic fallback branch of `analyze_text_with_mlx`
(taken when the MLX backend is unavailable): ordered keyword-set checks,
then the `> 20` words length heuristic, else `NOISE`. -/
def fallbackClassify (text : Str) : Classification :=
  let tl := toLowerStr text
  if BUG_KEYWORDS.any (fun kw => containsSub tl kw) then .BUG
  else if IDEA_KEYWORDS.any (fun kw => containsSub tl kw) then .IDEA
  else if FEEDBACK_KEYWORDS.any (fun kw => containsSub tl kw) then .FEEDBACK
  else if 20 < (pySplitWhitespace text).length then .DOCUMENT
  else .NOISE

/-- The label vocabulary in the parse priority order of
`analyze_text_with_mlx`. -/
def VALID_CLASSES : List (Str × Classification) :=
  [("NOISE".data, .NOISE), ("DOCUMENT".data, .DOCUMENT), ("BUG".data, .BUG),
   ("IDEA".data, .IDEA), ("FEEDBACK".data, .FEEDBACK)]

/-- Parsing of the model-backed generation output: strip and uppercase,
cut at `"<end_of_turn>"`, strip again, then first-match substring scan over
the label vocabulary; unparsable output defaults to `NOISE`. -/
def parseClassification (resp : Str) : Classification :=
  let cleaned := toUpperStr (trimStr resp)
  let cleaned := trimStr ((splitOnStr cleaned ("<end_of_turn>".data)).headD [])
  match VALID_CLASSES.find? (fun p => containsSub cleaned p.1) with
  | some p => p.2
  | none => .NOISE

/-- `analyze_text_with_mlx`: classification label and `text[:50]` summary.
The prompt construction around the generation call is folded into the
`mlx` oracle (it maps the input text to the model's raw response). -/
def analyze_text_with_mlx (env : Env) (text : Str) : Classification × Str :=
  match env.mlx with
  | none => (fallbackClassify text, text.take 50)
  | some gen => (parseClassification (gen text), text.take 50)

/-- The classification component of `analyze_text_with_mlx`'s result. -/
def classifyOf (env : Env) (text : Str) : Classification :=
  (analyze_text_with_mlx env text).1

/-! ### `chunking_engine.py` -/

/-- The paragraph separator `"\n\n"`. -/
def chunkSep : Str := ['\n', '\n']

/-- The accumulation loop of `ChunkingEngine.chunk_document` over the
paragraph list: greedily extend the current chunk while
`len(current) + len(para) < max_chunk_size`, otherwise flush the (stripped)
current chunk — when nonempty — and restart from the paragraph. -/
def chunkLoop (maxSize : Nat) : List Str → Str → List Str
  | [], current => if current = [] then [] else [trimStr current]
  | p :: ps, current =>
    if current.length + p.length < maxSize then
      chunkLoop maxSize ps (current ++ p ++ chunkSep)
    else
      (if current = [] then [] else [trimStr current]) ++ chunkLoop maxSize ps (p ++ chunkSep)

/-- `ChunkingEngine.chunk_document`: split on blank lines, then run the
greedy accumulation loop with an empty initial chunk. -/
def chunk_document (maxSize : Nat) (text : Str) : List Str :=
  chunkLoop maxSize (splitOnStr text chunkSep) []

/-- `ChunkingEngine.chunk_slack_thread`: flatten the thread into
`"User {user}: {text}"` lines joined by newlines — always exactly one
chunk. -/
def chunk_slack_thread (messages : List ThreadMsg) : List Str :=
  [List.intercalate ['\n']
    (messages.map (fun m => "User ".data ++ m.user.getD ("Unknown".data) ++ ": ".data ++ m.text))]

/-! ### `retrieval.py` -/

/-- `PUBLIC_SOURCES`: the source-tag allowlist for customer mode. -/
def PUBLIC_SOURCES : List Str :=
  (["docs", "tickets", "public_ticket"] : List String).map String.data

/-- `STOP_WORDS` (the source set literal repeats `"me"` and `"about"`;
as membership is all that matters the repetition is immaterial). -/
def STOP_WORDS : List Str :=
  (["i", "me", "my", "we", "our", "you", "your", "the", "a", "an", "is", "are",
    "was", "were", "be", "been", "being", "have", "has", "had", "do", "does",
    "did", "will", "would", "could", "should", "may", "might", "must", "shall",
    "can", "need", "dare", "ought", "used", "to", "of", "in", "for", "on", "with",
    "at", "by", "from", "as", "into", "through", "during", "before", "after",
    "above", "below", "between", "under", "again", "further", "then", "once",
    "here", "there", "when", "where", "why", "how", "all", "each", "few", "more",
    "most", "other", "some", "such", "no", "nor", "not", "only", "own", "same",
    "so", "than", "too", "very", "just", "and", "but", "if", "or", "because",
    "until", "while", "about", "against", "what", "which", "who", "whom", "this",
    "that", "these", "those", "am", "tell"] : List String).map String.data

/-- `is_public`: a document is citable in customer mode when its metadata is
present (truthy) and marks it public, or its source tag is allowlisted. -/
def is_public (metadata : Option Metadata) : Bool :=
  match metadata with
  | none => false
  | some m =>
    if m.public then true
    else
      match m.source with
      | some s => decide (s ∈ PUBLIC_SOURCES)
      | none => false

/-- `extract_keywords`: regex word tokens whose lowercase form is not a stop
word and whose length exceeds 1. -/
def extract_keywords (text : Str) : List Str :=
  (findallWordTokens text).filter
    (fun w => decide (toLowerStr w ∉ STOP_WORDS) && decide (1 < w.length))

/-- `tokenize`: like `extract_keywords` but tokenizes the lowercased text. -/
def tokenize (text : Str) : List Str :=
  (findallWordTokens (toLowerStr text)).filter
    (fun w => decide (w ∉ STOP_WORDS) && decide (1 < w.length))

/-- `compute_keyword_score`: fraction of query keywords found in the
document text, `+0.5` bonus per whole-word match, clamped to `[0, 1]`. -/
def compute_keyword_score (query doc_text : Str) : ℚ :=
  let query_keywords := extract_keywords (toLowerStr query)
  if query_keywords = [] then 0
  else
    let dl := toLowerStr doc_text
    let matchCount := query_keywords.foldl
      (fun acc kw =>
        if containsSub dl kw then
          (if hasWholeWord dl kw then acc + 1 + 1/2 else acc + 1)
        else acc) 0
    min (matchCount / (query_keywords.length : ℚ)) 1

/-- The banded score-fusion step of `hybrid_score_documents`. -/
def fuse (vec_score kw_score bm_score : ℚ) : ℚ :=
  if 1/2 < kw_score then
    vec_score * 0.35 + kw_score * 0.45 + bm_score * 0.20
  else if 0 < kw_score then
    vec_score * 0.50 + kw_score * 0.30 + bm_score * 0.20
  else
    vec_score * 0.70 + bm_score * 0.30

/-- The normalized BM25 scores of `hybrid_score_documents`: `get_bm25`
yields no backend when the library is unavailable or the document list is
empty (then every lexical score is `0`); otherwise the raw scores are
normalized by the batch maximum when it is positive, else zeroed. -/
def bmNormalizedScores (env : Env) (query : Str) (filtered_docs : List Doc) : List ℚ :=
  if filtered_docs = [] then []
  else
    match env.bm25 with
    | none => filtered_docs.map (fun _ => 0)
    | some f =>
      let raw := f (filtered_docs.map (fun d => tokenize d.text)) (tokenize query)
      let maxScore := if raw = [] then 0 else listMax raw
      if 0 < maxScore then raw.map (fun s => s / maxScore) else raw.map (fun _ => 0)

/-- The pre-threshold fused scores of `hybrid_score_documents`: one
`(combined, doc)` pair per vector-bearing document, indexing the semantic,
keyword and lexical score lists in parallel (`bm25_scores[i] if i < len
else 0.0`). -/
def combinedScores (env : Env) (query : Str) (query_embedding : List ℚ)
    (filtered_docs : List Doc) : List (ℚ × Doc) :=
  let bm := bmNormalizedScores env query filtered_docs
  (List.range filtered_docs.length).map (fun i =>
    let doc := filtered_docs.getD i {}
    let vec_score := env.cosSim query_embedding doc.vector
    let kw_score := compute_keyword_score query doc.text
    let bm_score := if i < bm.length then bm.getD i 0 else 0
    (fuse vec_score kw_score bm_score, doc))

/-- `hybrid_score_documents`: score the vector-bearing documents, sort by
fused score descending, keep scores `≥ min_relevance`, return the first
`top_k`. -/
def hybrid_score_documents (env : Env) (query : Str) (query_embedding : List ℚ)
    (docs : List Doc) (top_k : Nat) (min_relevance : ℚ) : List (ℚ × Doc) :=
  if docs = [] then []
  else
    let filtered_docs := docs.filter (fun d => decide (d.vector ≠ []))
    if filtered_docs = [] then []
    else
      let sorted := sortDesc (combinedScores env query query_embedding filtered_docs)
      (sorted.filter (fun p => decide (min_relevance ≤ p.1))).take top_k

/-- The absolute reranker floor (default `-5.0` on an unbounded scale). -/
def RERANK_FLOOR : ℚ := -5

/-- Modelled from the spec: `rerank_documents` is imported from
`ai_engine` in `retrieval.py` but its definition is absent from the
sources.  Spec §4.4 step 4 and §6: score each `(query, candidate)` pair
with the pairwise relevance model, sort descending, keep the items whose
score clears the absolute floor (default `-5.0`), and if none clear the
floor return the top `top_k` by raw score anyway — never an empty set when
candidates existed; the reranker collaborator is optional and its absence
degrades to pass-through of the incoming fused-score order.  The result is
capped at `top_k` (spec §8: returned count `≤ top_k`). -/
def rerank_documents (scorer : Option (Str → Str → ℚ)) (query : Str)
    (docs : List Doc) (top_k : Nat) : List Doc :=
  match scorer with
  | none => docs.take top_k
  | some f =>
    let sorted := sortDesc (docs.map (fun d => (f query d.text, d)))
    let kept := sorted.filter (fun p => decide (RERANK_FLOOR ≤ p.1))
    if kept = [] then (sorted.take top_k).map (fun p => p.2)
    else (kept.take top_k).map (fun p => p.2)

/-- The structured outcome of `retrieve`.  The degenerate outcomes carry an
`answer` and empty lists; the success outcome has no `answer` key and
carries contexts, citations, `{"text", "metadata"}` document views and the
deduplicated source tags. -/
structure RetrievalResult where
  answer : Option Str := none
  contexts : List Str := []
  citations : List (Option Metadata) := []
  documents : List (Str × Option Metadata) := []
  unique_sources : List Str := []
deriving DecidableEq

/-- The candidate stage of `retrieve`: hybrid scoring with a `5 × top_k`
pool, then reranking to `top_k` and re-tagging every survivor with the
constant score `0.99`; an empty hybrid stage yields no final documents. -/
def finalDocs (env : Env) (docs : List Doc) (query : Str) (top_k : Nat)
    (min_relevance : ℚ) : List (ℚ × Doc) :=
  let query_vec := env.embed query
  let scored_docs := hybrid_score_documents env query query_vec docs (top_k * 5) min_relevance
  if scored_docs = [] then []
  else
    (rerank_documents env.rrScore query (scored_docs.map (fun p => p.2)) top_k).map
      (fun d => ((0.99 : ℚ), d))

/-- The success payload of `retrieve` built from the final documents. -/
def mkSuccess (final_docs : List (ℚ × Doc)) : RetrievalResult :=
  let citations := final_docs.map (fun p => p.2.metadata)
  { contexts := final_docs.map (fun p => p.2.text)
    citations := citations
    documents := final_docs.map (fun p => (p.2.text, p.2.metadata))
    unique_sources := (citations.map (fun m => ((m.bind Metadata.source).getD ("unknown".data)))).dedup }

/-- `retrieve`: empty store short-circuit, hybrid scoring and reranking,
then the customer-mode visibility filter with its explicit insufficiency
outcome, or the internal-mode no-result outcome. -/
def retrieve (env : Env) (docs : List Doc) (mode : Str) (query : Str)
    (top_k : Nat) (min_relevance : ℚ) : RetrievalResult :=
  if docs = [] then
    { answer := some ("No knowledge available".data) }
  else
    let final_docs := finalDocs env docs query top_k min_relevance
    if mode = "customer".data then
      let safe_docs := final_docs.filter (fun p => is_public p.2.metadata)
      if safe_docs = [] then
        { answer := some ("Insufficient public sources available.".data) }
      else
        mkSuccess safe_docs
    else
      if final_docs = [] then
        { answer := some ("No relevant documents found.".data) }
      else
        mkSuccess final_docs

/-! ### `handlers.py` -/

/-- `CHANNEL_MAP` from `config.py`.  Note that `"customer_input"` is mapped
to the same channel id as `"ideas"`. -/
def CH_customers_concerns : Str := "C0A808L5Q6R".data

/-- `CHANNEL_MAP["final_changes"]`. -/
def CH_final_changes : Str := "C0A83LPSB7C".data

/-- `CHANNEL_MAP["docs"]`. -/
def CH_docs : Str := "C0A7N8H907R".data

/-- `CHANNEL_MAP["ideas"]`. -/
def CH_ideas : Str := "C0A808R3C9K".data

/-- `CHANNEL_MAP["social"]`. -/
def CH_social : Str := "C080YMEQK0W".data

/-- `CHANNEL_MAP["marketing"]`. -/
def CH_marketing : Str := "C0A8Y0TLT08".data

/-- `CHANNEL_MAP["sales"]`. -/
def CH_sales : Str := "C0A879AHW1J".data

/-- `CHANNEL_MAP["top_secret"]`. -/
def CH_top_secret : Str := "C0A808JP38D".data

/-- `CHANNEL_MAP["customer_input"]` (the same id as `CHANNEL_MAP["ideas"]`). -/
def CH_customer_input : Str := "C0A808R3C9K".data

/-- The dedup key of a message event: `f"{channel_id}:{ts}"`. -/
def msgKey (channel ts : Str) : Str := channel ++ [':'] ++ ts

/-- The Mongo filter `{"metadata.ts": ts}` on a stored document. -/
def hasTs (ts : Str) (d : Doc) : Bool :=
  match d.metadata with
  | some m => decide (m.ts = some ts)
  | none => false

/-- The Mongo filter `{"metadata.thread_ts": ts}` on a stored document. -/
def hasThreadTs (ts : Str) (d : Doc) : Bool :=
  match d.metadata with
  | some m => decide (m.thread_ts = some ts)
  | none => false

/-- The Mongo filter `{"metadata.filename": name, "metadata.ts": ts}`. -/
def hasFileTs (name ts : Str) (d : Doc) : Bool :=
  match d.metadata with
  | some m => decide (m.filename = some name) && decide (m.ts = some ts)
  | none => false

/-- The bot mention pattern `f"<@{BOT_USER_ID}>"`, empty when the cached
bot user id is empty. -/
def mentionPattern (botUserId : Str) : Str :=
  if botUserId = [] then [] else "<@".data ++ botUserId ++ ">".data

/-- The mention test of `handle_incoming_messages`: the id pattern occurs
in the text (when the id is known), or the literal `"@aiOS"` does. -/
def isMention (botUserId text : Str) : Bool :=
  (!(mentionPattern botUserId = []) && containsSub text (mentionPattern botUserId)) ||
  containsSub text ("@aiOS".data)

/-- The `:PUSH` clean-up chain: strip the mention pattern and `:PUSH`
command variants, then whitespace; fall back to the original text when
cleaning removed everything. -/
def pushCleanText (botUserId text : Str) : Str :=
  let p := mentionPattern botUserId
  let c := text
  let c := if p = [] then c else
    replaceAll (replaceAll c (p ++ ":PUSH".data) []) (p ++ " :PUSH".data) []
  let c := trimStr (replaceAll (replaceAll (replaceAll c ("@aiOS:PUSH".data) [])
    ("@aiOS :PUSH".data) []) (":PUSH".data) [])
  if c = [] then text else c

/-- The item inserted by the `:PUSH` force-store override. -/
def pushItem (env : Env) (user : Option Str) (ts text : Str) : Doc :=
  let clean_text := pushCleanText env.botUserId text
  { text := clean_text
    vector := env.embed clean_text
    metadata := some { source := some ("mention_push".data)
                       user := some (env.username user)
                       ts := some ts
                       source_of_truth := true
                       public := true } }

/-- The item inserted by a plain (non-command) bot mention. -/
def mentionItem (env : Env) (user : Option Str) (ts text : Str) : Doc :=
  { text := text
    vector := env.embed text
    metadata := some { source := some ("mention".data)
                       user := some (env.username user)
                       ts := some ts
                       source_of_truth := false
                       public := false } }

/-- The item inserted by the `final_changes` (source-of-truth) route. -/
def finalChangesItem (env : Env) (user : Option Str) (ts text : Str) : Doc :=
  { text := text
    vector := env.embed text
    metadata := some { source := some ("final_changes".data)
                       user := some (env.username user)
                       ts := some ts
                       source_of_truth := true
                       public := false } }

/-- A page chunk inserted by the docs file-ingestion route. -/
def docsChunkItem (env : Env) (name ts : Str) (i : Nat) (page_text : Str) : Doc :=
  { text := page_text
    vector := env.embed page_text
    metadata := some { source := some ("docs".data)
                       filename := some name
                       chunk_id := some i
                       ts := some ts
                       source_of_truth := true
                       public := true } }

/-- A thread chunk inserted by the ideas routes (both the ideas channel of
`handle_incoming_messages` and the ideas branch of `handle_message_edit`). -/
def ideaChunkItem (env : Env) (thread_ts chunk_text : Str) : Doc :=
  { text := chunk_text
    vector := env.embed chunk_text
    metadata := some { source := some ("ideas_channel".data)
                       thread_ts := some thread_ts
                       itemType := some ("thread_context".data)
                       source_of_truth := false
                       public := false } }

/-- The idea item inserted by the customer-agent route, keyed by the
timestamp of the agent-posted idea message. -/
def agentIdeaItem (env : Env) (text : Str) : Doc :=
  { text := text
    vector := env.embed text
    metadata := some { source := some ("agent".data)
                       thread_ts := some env.postTs } }

/-- The docs-route file loop: per file, extract pages, skip when nothing
was extracted, skip when chunks with this filename and timestamp already
exist, otherwise insert one chunk per page (insertions only happen while
the store is up). -/
def processFiles (env : Env) (ts : Str) : List FileRec → List Doc → List Doc
  | [], kn => kn
  | f :: fs, kn =>
    let pages := env.fileText f
    if pages = [] then processFiles env ts fs kn
    else if env.dbUp then
      if 0 < kn.countP (hasFileTs f.name ts) then processFiles env ts fs kn
      else processFiles env ts fs
        (kn ++ pages.enum.map (fun p => docsChunkItem env f.name ts p.1 p.2))
    else processFiles env ts fs kn

/-- The channel routing of `handle_incoming_messages` after the dedup gate
has accepted the event: the resulting knowledge and ideas collections.  The
routing code reads and writes only the two collections (pure messaging
side effects — reactions, chat posts, the `:ASK` reply — touch neither),
so it is embedded as a function of them. -/
def routeMessage (env : Env) (kn ideas : List Doc) (msg : Message) : List Doc × List Doc :=
  if isMention env.botUserId msg.text then
    if containsSub msg.text (":PUSH".data) then
      if env.dbUp then (kn ++ [pushItem env msg.user msg.ts msg.text], ideas)
      else (kn, ideas)
    else if containsSub msg.text (":ASK".data) then
      (kn, ideas)
    else
      if env.dbUp then (kn ++ [mentionItem env msg.user msg.ts msg.text], ideas)
      else (kn, ideas)
  else if msg.channel = CH_marketing ∨ msg.channel = CH_sales ∨ msg.channel = CH_top_secret then
    (kn, ideas)
  else if msg.channel = CH_final_changes then
    let classification := classifyOf env msg.text
    if classification = .BUG ∨ classification = .IDEA ∨
        classification = .FEEDBACK ∨ classification = .DOCUMENT then
      if env.dbUp then (kn ++ [finalChangesItem env msg.user msg.ts msg.text], ideas)
      else (kn, ideas)
    else (kn, ideas)
  else if msg.channel = CH_docs then
    if msg.files = [] then (kn, ideas)
    else (processFiles env msg.ts msg.files kn, ideas)
  else if msg.channel = CH_ideas then
    let thread_ts := msg.thread_ts.getD msg.ts
    let messages_list := (env.threadMessages msg.channel thread_ts).getD
      [{ user := msg.user, text := msg.text }]
    let chunks := chunk_slack_thread messages_list
    if env.dbUp then
      (kn, ideas.filter (fun d => !(hasThreadTs thread_ts d)) ++
        (chunks.filter
          (fun c => !(classifyOf env c = .NOISE))).map (ideaChunkItem env thread_ts))
    else (kn, ideas)
  else if msg.channel = CH_customer_input ∨ msg.channel_type = some ("im".data) then
    let classification := classifyOf env msg.text
    if classification = .NOISE then (kn, ideas)
    else if classification = .BUG then (kn, ideas)
    else if classification = .IDEA then
      let existing_idea := if env.dbUp then
        ideas.find? (fun d => containsSub (toLowerStr d.text) (toLowerStr msg.text))
      else none
      match existing_idea with
      | some _ => (kn, ideas)
      | none =>
        if env.dbUp then (kn, ideas ++ [agentIdeaItem env msg.text])
        else (kn, ideas)
    else (kn, ideas)
  else (kn, ideas)

/-- `handle_incoming_messages`: the two-tier dedup gate (in-process set,
then the store existence query whose hit backfills the set), marking the
key as processed before any routing work, then the channel routing. -/
def handle_incoming_messages (env : Env) (st : HState) (msg : Message) : HState :=
  if msgKey msg.channel msg.ts ∈ st.processed then st
  else if env.dbUp &&
      (0 < st.knowledge.countP (hasTs msg.ts) || 0 < st.ideas.countP (hasThreadTs msg.ts)) then
    { st with processed := msgKey msg.channel msg.ts :: st.processed }
  else
    { processed := msgKey msg.channel msg.ts :: st.processed,
      knowledge := (routeMessage env st.knowledge st.ideas msg).1,
      ideas := (routeMessage env st.knowledge st.ideas msg).2 }

/-- `handle_message_deletion`: when the store is up and something matches,
`delete_one` on each collection (one document each at most), and purge the
in-process entries whose key ends with `f":{deleted_ts}"`. -/
def handle_message_deletion (env : Env) (st : HState) (deleted_ts : Option Str) : HState :=
  match deleted_ts with
  | none => st
  | some dts =>
    if env.dbUp then
      let k_exists := st.knowledge.countP (hasTs dts)
      let i_exists := st.ideas.countP (hasThreadTs dts)
      if k_exists = 0 ∧ i_exists = 0 then st
      else
        { st with
          knowledge := eraseFirstP (hasTs dts) st.knowledge
          ideas := eraseFirstP (hasThreadTs dts) st.ideas
          processed := st.processed.filter (fun key => !(List.isSuffixOf ([':'] ++ dts) key)) }
    else st

/-- The knowledge-collection update loop of `handle_message_edit`: file
chunks (entries with a filename) are never updated; `final_changes` text
entries are re-classified and deleted on downgrade to `NOISE`; entries
survive unchanged when the edited text is blank; otherwise text and
embedding are updated in place. -/
def editKnowledgeEntry (env : Env) (ts text : Str) (d : Doc) : Option Doc :=
  if hasTs ts d then
    match d.metadata with
    | some m =>
      if m.filename = none then
        if m.source = some ("final_changes".data) ∧
            ¬ (classifyOf env text = .BUG ∨ classifyOf env text = .IDEA ∨
               classifyOf env text = .FEEDBACK ∨ classifyOf env text = .DOCUMENT) then
          none
        else if trimStr text = [] then some d
        else some { d with text := text, vector := env.embed text }
      else some d
    | none => some d
  else some d

/-- `handle_message_edit`: drop the dedup entry, count matches in both
collections, hand an unknown event to `handle_incoming_messages`, update
knowledge text entries in place, and replace a stored ideas thread by
delete-then-insert of the re-chunked current thread. -/
def handle_message_edit (env : Env) (st : HState) (channel ts text : Str)
    (user : Option Str) (threadTsField : Option Str) : HState :=
  if env.dbUp then
    let st := { st with processed := st.processed.erase (msgKey channel ts) }
    let k_count := st.knowledge.countP (hasTs ts)
    let i_count := st.ideas.countP (hasThreadTs ts)
    if k_count = 0 ∧ i_count = 0 then
      handle_incoming_messages env st
        { channel := channel, ts := ts, text := text, user := user,
          thread_ts := threadTsField }
    else
      let st1 := if 0 < k_count then
        { st with knowledge := st.knowledge.filterMap (editKnowledgeEntry env ts text) }
      else st
      if 0 < i_count then
        let thread_ts := threadTsField.getD ts
        let messages_list := (env.threadMessages channel thread_ts).getD
          [{ user := user, text := text }]
        let chunks := chunk_slack_thread messages_list
        { st1 with ideas :=
            st1.ideas.filter (fun d => !(hasThreadTs thread_ts d)) ++
            (chunks.filter
              (fun c => !(classifyOf env c = .NOISE))).map (ideaChunkItem env thread_ts) }
      else st1
  else st

/-! ### Concrete fixtures -/

/-- First 200-character paragraph of the spec's chunking example. -/
def exPara1 : Str := List.replicate 200 'a'

/-- Second 200-character paragraph of the spec's chunking example. -/
def exPara2 : Str := List.replicate 200 'b'

/-- Third 200-character paragraph of the spec's chunking example. -/
def exPara3 : Str := List.replicate 200 'c'

/-- The three-paragraph document of the spec's chunking example. -/
def exDocText : Str := exPara1 ++ chunkSep ++ exPara2 ++ chunkSep ++ exPara3

/-- A private stored document (non-public, non-allowlisted source). -/
def privateDoc : Doc :=
  { text := "secret".data
    vector := [1]
    metadata := some { source := some ("final_changes".data) } }

/-- A minimal stored document carrying only a vector. -/
def bareVecDoc : Doc := { vector := [1] }

/-- A stored knowledge item keyed by timestamp `"100.1"`. -/
def dedupHitDoc : Doc :=
  { text := "x".data, metadata := some { ts := some ("100.1".data) } }

/-- A state whose knowledge collection already holds `dedupHitDoc`. -/
def dedupHitState : HState := { knowledge := [dedupHitDoc] }

/-- A fresh message event with timestamp `"100.1"`. -/
def dedupMsg : Message :=
  { channel := CH_final_changes, ts := "100.1".data, text := "ok".data }

/-- A `:PUSH` override mention message. -/
def pushMsg : Message :=
  { channel := CH_final_changes, ts := "300.7".data,
    text := "@aiOS :PUSH remember the deploy runbook".data }

/-- First page chunk of an ingested file, keyed by timestamp `"111.222"`. -/
def fileChunkA : Doc :=
  { text := "page one".data
    metadata := some { source := some ("docs".data), filename := some ("f.pdf".data),
                       chunk_id := some 0, ts := some ("111.222".data),
                       source_of_truth := true, public := true } }

/-- Second page chunk of the same file and timestamp. -/
def fileChunkB : Doc :=
  { text := "page two".data
    metadata := some { source := some ("docs".data), filename := some ("f.pdf".data),
                       chunk_id := some 1, ts := some ("111.222".data),
                       source_of_truth := true, public := true } }

/-- A state holding the two file chunks of timestamp `"111.222"`. -/
def twoChunkState : HState := { knowledge := [fileChunkA, fileChunkB] }

/-- The thread key of the stored ideas thread used in the edit example. -/
def ideaTs : Str := "200.5".data

/-- A stored ideas-thread chunk keyed by `ideaTs`. -/
def oldIdeaDoc : Doc :=
  { text := "old chunk".data
    metadata := some { source := some ("ideas_channel".data), thread_ts := some ideaTs,
                       itemType := some ("thread_context".data) } }

/-- A state whose ideas collection holds `oldIdeaDoc`. -/
def editState : HState := { ideas := [oldIdeaDoc] }

/-- The spec's classification example text. -/
def deployText : Str := "Deploy script fails with permission denied on /var/log".data

/-! ### General list lemmas -/

theorem insertDesc_length {α : Type} (x : ℚ × α) (l : List (ℚ × α)) :
    (insertDesc x l).length = l.length + 1 := by
  induction l with
  | nil => rfl
  | cons y ys ih =>
    unfold insertDesc
    split
    · simp
    · simp [ih]

theorem sortDesc_length {α : Type} (l : List (ℚ × α)) :
    (sortDesc l).length = l.length := by
  induction l with
  | nil => rfl
  | cons x xs ih => simp [sortDesc, insertDesc_length, ih]

theorem mem_insertDesc {α : Type} (x p : ℚ × α) (l : List (ℚ × α)) :
    p ∈ insertDesc x l ↔ p = x ∨ p ∈ l := by
  induction l with
  | nil => simp [insertDesc]
  | cons y ys ih =>
    unfold insertDesc
    split
    · simp [List.mem_cons]
    · simp [List.mem_cons, ih]
      tauto

theorem mem_sortDesc {α : Type} (p : ℚ × α) (l : List (ℚ × α)) :
    p ∈ sortDesc l ↔ p ∈ l := by
  induction l with
  | nil => simp [sortDesc]
  | cons x xs ih => simp [sortDesc, mem_insertDesc, ih]

theorem foldl_max_le_init (l : List ℚ) (a : ℚ) : a ≤ l.foldl max a := by
  induction l generalizing a with
  | nil => simp
  | cons b bs ih => exact le_trans (le_max_left a b) (ih (max a b))

theorem mem_le_foldl_max (l : List ℚ) : ∀ (a x : ℚ), x ∈ l → x ≤ l.foldl max a := by
  induction l with
  | nil => intro a x hx; cases hx
  | cons b bs ih =>
    intro a x hx
    rcases List.mem_cons.mp hx with h | h
    · subst h
      exact le_trans (le_max_right a x) (foldl_max_le_init bs (max a x))
    · exact ih (max a b) x h

theorem mem_le_listMax (l : List ℚ) (x : ℚ) (hx : x ∈ l) : x ≤ listMax l := by
  cases l with
  | nil => cases hx
  | cons y ys =>
    rcases List.mem_cons.mp hx with h | h
    · subst h
      exact foldl_max_le_init ys x
    · exact mem_le_foldl_max ys y x h

/-! ### Claim C7: document chunking -/

theorem chunkLoop_flush_of_big_current (maxSize : Nat) (hmax : 0 < maxSize) :
    ∀ (ps : List Str) (current : Str), maxSize ≤ current.length →
      trimStr current ∈ chunkLoop maxSize ps current := by
  intro ps
  induction ps with
  | nil =>
    intro current hc
    have hne : current ≠ [] := by
      intro h
      subst h
      simp at hc
      omega
    simp [chunkLoop, hne]
  | cons p ps ih =>
    intro current hc
    have hcond : ¬ (current.length + p.length < maxSize) := by omega
    have hne : current ≠ [] := by
      intro h
      subst h
      simp at hc
      omega
    simp only [chunkLoop, if_neg hcond, if_neg hne]
    exact List.mem_append_left _ (List.mem_singleton.mpr rfl)

theorem chunkLoop_oversized_mem (maxSize : Nat) (hmax : 0 < maxSize) (P : Str)
    (hlen : maxSize ≤ P.length) :
    ∀ (ps : List Str) (current : Str), P ∈ ps →
      trimStr (P ++ chunkSep) ∈ chunkLoop maxSize ps current := by
  intro ps
  induction ps with
  | nil =>
    intro current h
    cases h
  | cons p ps ih =>
    intro current hP
    rcases List.mem_cons.mp hP with h | h
    · subst h
      have hcond : ¬ (current.length + P.length < maxSize) := by omega
      have hmem : trimStr (P ++ chunkSep) ∈ chunkLoop maxSize ps (P ++ chunkSep) := by
        apply chunkLoop_flush_of_big_current maxSize hmax ps (P ++ chunkSep)
        simp [chunkSep]
        omega
      simp only [chunkLoop, if_neg hcond]
      exact List.mem_append_right _ hmem
    · by_cases hcond : current.length + p.length < maxSize
      · simp only [chunkLoop, if_pos hcond]
        exact ih _ h
      · simp only [chunkLoop, if_neg hcond]
        exact List.mem_append_right _ (ih _ h)

/-- C7: `chunk_document` splits its input on blank-line paragraph
boundaries and accumulates greedily; a paragraph that already reaches the
configured maximum is emitted as its own (stripped) oversized chunk with no
mid-paragraph split; and the spec's example — three 200-character
paragraphs at `max_chunk_size = 500` — yields exactly the two chunks
`[p1 ++ "\n\n" ++ p2]` and `[p3]`. -/
theorem chunk_document_greedy_spec :
    (∀ (maxSize : Nat) (text P : Str), 0 < maxSize → P ∈ splitOnStr text chunkSep →
      maxSize ≤ P.length → trimStr (P ++ chunkSep) ∈ chunk_document maxSize text) ∧
    chunk_document 500 exDocText = [exPara1 ++ chunkSep ++ exPara2, exPara3] := by
  constructor
  · intro maxSize text P hm hP hlen
    unfold chunk_document
    exact chunkLoop_oversized_mem maxSize hm P hlen _ [] hP
  · decide

/-- C7 witness: a 7-character single-paragraph document with
`max_chunk_size = 5` is emitted as one oversized chunk. -/
theorem chunk_document_greedy_spec_witness :
    trimStr ("aaaaaaa".data ++ chunkSep) ∈ chunk_document 5 ("aaaaaaa".data) :=
  chunk_document_greedy_spec.1 5 ("aaaaaaa".data) ("aaaaaaa".data)
    (by decide) (by decide) (by decide)

/-! ### Claim C6: hybrid score fusion -/

theorem kwFoldl_init_le (dl : Str) (l : List Str) :
    ∀ acc : ℚ, acc ≤ l.foldl
      (fun acc kw =>
        if containsSub dl kw then
          (if hasWholeWord dl kw then acc + 1 + 1/2 else acc + 1)
        else acc) acc := by
  induction l with
  | nil => intro acc; simp
  | cons kw kws ih =>
    intro acc
    refine le_trans ?_ (ih _)
    dsimp only
    split
    · split <;> linarith
    · linarith

theorem compute_keyword_score_bounds (q d : Str) :
    0 ≤ compute_keyword_score q d ∧ compute_keyword_score q d ≤ 1 := by
  by_cases h : extract_keywords (toLowerStr q) = []
  · simp [compute_keyword_score, h]
  · simp only [compute_keyword_score, if_neg h]
    constructor
    · apply le_min
      · apply div_nonneg
        · exact le_trans (le_refl 0) (kwFoldl_init_le _ _ 0)
        · positivity
      · norm_num
    · exact min_le_right _ _

theorem fuse_range (v k b : ℚ) (hv1 : -1 ≤ v) (hv2 : v ≤ 1) (hk1 : 0 ≤ k)
    (hk2 : k ≤ 1) (hb1 : 0 ≤ b) (hb2 : b ≤ 1) :
    -(70/100) ≤ fuse v k b ∧ fuse v k b ≤ 1 := by
  unfold fuse
  split
  · constructor <;> nlinarith
  · split
    · constructor <;> nlinarith
    · constructor <;> nlinarith

theorem bmNormalizedScores_bounds (env : Env) (q : Str) (filtered : List Doc)
    (hraw : ∀ f, env.bm25 = some f → ∀ corpus qt s, s ∈ f corpus qt → 0 ≤ s) :
    ∀ b ∈ bmNormalizedScores env q filtered, 0 ≤ b ∧ b ≤ 1 := by
  intro b hb
  unfold bmNormalizedScores at hb
  by_cases hf : filtered = []
  · simp [hf] at hb
  · rw [if_neg hf] at hb
    cases hm : env.bm25 with
    | none =>
      rw [hm] at hb
      simp only [List.mem_map] at hb
      obtain ⟨_, _, hzero⟩ := hb
      constructor <;> simp [hzero.symm]
    | some f =>
      rw [hm] at hb
      simp only at hb
      by_cases hr : f (filtered.map fun d => tokenize d.text) (tokenize q) = []
      · rw [hr] at hb
        simp at hb
      · rw [if_neg hr] at hb
        by_cases hmax : 0 < listMax (f (filtered.map fun d => tokenize d.text) (tokenize q))
        · rw [if_pos hmax] at hb
          simp only [List.mem_map] at hb
          obtain ⟨sc, hsc, rfl⟩ := hb
          have h0 : 0 ≤ sc := hraw f hm _ _ sc hsc
          have hle : sc ≤ listMax (f (filtered.map fun d => tokenize d.text) (tokenize q)) :=
            mem_le_listMax _ sc hsc
          constructor
          · exact div_nonneg h0 (le_of_lt hmax)
          · exact (div_le_one hmax).mpr hle
        · rw [if_neg hmax] at hb
          simp only [List.mem_map] at hb
          obtain ⟨_, _, hzero⟩ := hb
          constructor <;> simp [hzero.symm]

theorem combinedScores_range (env : Env) (q : Str) (e : List ℚ) (filtered : List Doc)
    (hcos : ∀ vec, -1 ≤ env.cosSim e vec ∧ env.cosSim e vec ≤ 1)
    (hraw : ∀ f, env.bm25 = some f → ∀ corpus qt s, s ∈ f corpus qt → 0 ≤ s) :
    ∀ p ∈ combinedScores env q e filtered, -(70/100) ≤ p.1 ∧ p.1 ≤ 1 := by
  intro p hp
  unfold combinedScores at hp
  simp only [List.mem_map, List.mem_range] at hp
  obtain ⟨i, hi, rfl⟩ := hp
  dsimp only
  have hbm : 0 ≤ (if i < (bmNormalizedScores env q filtered).length then
        (bmNormalizedScores env q filtered).getD i 0 else 0) ∧
      (if i < (bmNormalizedScores env q filtered).length then
        (bmNormalizedScores env q filtered).getD i 0 else 0) ≤ 1 := by
    split
    · next hlen =>
      have hmem : (bmNormalizedScores env q filtered).getD i 0 ∈ bmNormalizedScores env q filtered := by
        rw [List.getD_eq_getElem _ _ hlen]
        exact List.getElem_mem _
      exact bmNormalizedScores_bounds env q filtered hraw _ hmem
    · exact ⟨le_refl 0, by norm_num⟩
  have hkw := compute_keyword_score_bounds q (filtered.getD i {}).text
  exact fuse_range _ _ _ (hcos _).1 (hcos _).2 hkw.1 hkw.2 hbm.1 hbm.2

/-- C6: the fused score of `hybrid_score_documents` is the banded
combination of the spec (keyword above 0.5: 0.35/0.45/0.20; keyword in
(0, 0.5]: 0.50/0.30/0.20; keyword zero: 0.70 semantic + 0.30 lexical);
`compute_keyword_score` is clamped to [0,1]; and with semantic similarity
in [-1,1] and nonnegative raw lexical scores every pre-threshold fused
score lies in [-0.70, 1.00]. -/
theorem hybrid_fusion_banded_and_range :
    (∀ q d, 0 ≤ compute_keyword_score q d ∧ compute_keyword_score q d ≤ 1) ∧
    (∀ v k b : ℚ, fuse v k b =
      if 1/2 < k then 35/100 * v + 45/100 * k + 20/100 * b
      else if 0 < k then 50/100 * v + 30/100 * k + 20/100 * b
      else 70/100 * v + 30/100 * b) ∧
    (∀ v k b : ℚ, -1 ≤ v → v ≤ 1 → 0 ≤ k → k ≤ 1 → 0 ≤ b → b ≤ 1 →
      -(70/100) ≤ fuse v k b ∧ fuse v k b ≤ 1) ∧
    (∀ (env : Env) (q : Str) (e : List ℚ) (filtered : List Doc),
      (∀ vec, -1 ≤ env.cosSim e vec ∧ env.cosSim e vec ≤ 1) →
      (∀ f, env.bm25 = some f → ∀ corpus qt s, s ∈ f corpus qt → 0 ≤ s) →
      ∀ p ∈ combinedScores env q e filtered, -(70/100) ≤ p.1 ∧ p.1 ≤ 1) := by
  refine ⟨compute_keyword_score_bounds, ?_, ?_, combinedScores_range⟩
  · intro v k b
    unfold fuse
    split
    · norm_num
      ring
    · split
      · norm_num
        ring
      · norm_num
        ring
  · intro v k b h1 h2 h3 h4 h5 h6
    exact fuse_range v k b h1 h2 h3 h4 h5 h6

/-- C6 witness: the range bound instantiated at concrete scores. -/
theorem hybrid_fusion_banded_and_range_witness :
    -(70/100) ≤ fuse (1/2) (3/4) (1/4) ∧ fuse (1/2) (3/4) (1/4) ≤ 1 :=
  hybrid_fusion_banded_and_range.2.2.1 (1/2) (3/4) (1/4)
    (by norm_num) (by norm_num) (by norm_num) (by norm_num) (by norm_num) (by norm_num)

/-! ### Claim C9: degenerate retrieval cases -/

theorem foldl_max_zero_of_zeros (l : List (List Str)) :
    (l.map (fun _ => (0 : ℚ))).foldl max 0 = 0 := by
  induction l with
  | nil => rfl
  | cons x xs ih => simpa using ih

theorem bmNone_eq_zeroBackend (env : Env) (q : Str) (filtered : List Doc) :
    bmNormalizedScores { env with bm25 := none } q filtered =
    bmNormalizedScores { env with bm25 := some (fun corpus _ => corpus.map (fun _ => 0)) } q filtered := by
  unfold bmNormalizedScores
  by_cases hf : filtered = []
  · simp [hf]
  · rw [if_neg hf, if_neg hf]
    simp only
    have hraw : ((filtered.map fun d => tokenize d.text).map (fun _ => (0 : ℚ))) =
        filtered.map (fun _ => (0 : ℚ)) := by
      rw [List.map_map]
      rfl
    by_cases hr : (filtered.map fun d => tokenize d.text).map (fun _ => (0 : ℚ)) = []
    · rw [hraw] at hr
      simp at hr
      exact absurd hr hf
    · rw [if_neg hr]
      have hmax : listMax ((filtered.map fun d => tokenize d.text).map (fun _ => (0 : ℚ))) = 0 := by
        cases hc : filtered with
        | nil => exact absurd hc hf
        | cons a as =>
          subst hc
          simp only [List.map_cons, listMax]
          exact foldl_max_zero_of_zeros (as.map fun d => tokenize d.text)
      rw [hmax]
      rw [if_neg (lt_irrefl 0), List.map_map, List.map_map]
      rfl

/-- C9: the degenerate retrieval cases resolve to explicit values rather
than errors — an empty store yields the "No knowledge available" answer, a
store with no vectors yields an empty hybrid result, and an absent lexical
backend neutralizes every lexical score to 0 (equivalently, behaves as an
all-zero scoring backend). -/
theorem retrieval_degenerate_cases :
    (∀ (env : Env) (mode q : Str) (k : Nat) (r : ℚ),
      retrieve env [] mode q k r = { answer := some ("No knowledge available".data) }) ∧
    (∀ (env : Env) (q : Str) (e : List ℚ) (docs : List Doc) (k : Nat) (r : ℚ),
      (∀ d ∈ docs, d.vector = []) → hybrid_score_documents env q e docs k r = []) ∧
    (∀ (env : Env) (q : Str) (filtered : List Doc), env.bm25 = none →
      bmNormalizedScores env q filtered = filtered.map (fun _ => 0)) ∧
    (∀ (env : Env) (q : Str) (e : List ℚ) (docs : List Doc) (k : Nat) (r : ℚ),
      hybrid_score_documents { env with bm25 := none } q e docs k r =
      hybrid_score_documents
        { env with bm25 := some (fun corpus _ => corpus.map (fun _ => 0)) } q e docs k r) := by
  refine ⟨?_, ?_, ?_, ?_⟩
  · intro env mode q k r
    rfl
  · intro env q e docs k r hv
    unfold hybrid_score_documents
    by_cases hd : docs = []
    · simp [hd]
    · rw [if_neg hd]
      have hfil : docs.filter (fun d => decide (d.vector ≠ [])) = [] := by
        apply List.filter_eq_nil_iff.mpr
        intro d hd2
        simp [hv d hd2]
      rw [if_pos hfil]
  · intro env q filtered hb
    unfold bmNormalizedScores
    by_cases hf : filtered = []
    · simp [hf]
    · rw [if_neg hf, hb]
  · intro env q e docs k r
    unfold hybrid_score_documents
    by_cases hd : docs = []
    · simp [hd]
    · rw [if_neg hd, if_neg hd]
      by_cases hfil : docs.filter (fun d => decide (d.vector ≠ [])) = []
      · rw [if_pos hfil, if_pos hfil]
      · rw [if_neg hfil, if_neg hfil]
        have hcomb : combinedScores { env with bm25 := none } q e
            (docs.filter (fun d => decide (d.vector ≠ []))) =
            combinedScores { env with bm25 := some (fun corpus _ => corpus.map (fun _ => 0)) } q e
            (docs.filter (fun d => decide (d.vector ≠ []))) := by
          unfold combinedScores
          rw [bmNone_eq_zeroBackend]
        rw [hcomb]

/-- C9 witness: a store whose single document has no vector produces an
empty hybrid result. -/
theorem retrieval_degenerate_cases_witness :
    hybrid_score_documents {} ("q".data) [] [{ text := "t".data }] 3 (45/100) = [] :=
  retrieval_degenerate_cases.2.1 {} ("q".data) [] [{ text := "t".data }] 3 (45/100)
    (by intro d hd; simp at hd; simp [hd])

/-! ### Claim C2: reranking never empties a candidate set -/

theorem rerank_documents_length_le (scorer : Option (Str → Str → ℚ)) (q : Str)
    (docs : List Doc) (k : Nat) : (rerank_documents scorer q docs k).length ≤ k := by
  unfold rerank_documents
  cases scorer with
  | none => exact List.length_take_le k docs
  | some f =>
    dsimp only
    split
    · rw [List.length_map]
      exact List.length_take_le _ _
    · rw [List.length_map]
      exact List.length_take_le _ _

theorem rerank_documents_ne_nil (scorer : Option (Str → Str → ℚ)) (q : Str)
    (docs : List Doc) (k : Nat) (hk : 0 < k) (hd : docs ≠ []) :
    rerank_documents scorer q docs k ≠ [] := by
  unfold rerank_documents
  cases scorer with
  | none =>
    intro h
    rcases List.take_eq_nil_iff.mp h with h | h
    · omega
    · exact hd h
  | some f =>
    dsimp only
    have hs : sortDesc (docs.map (fun d => (f q d.text, d))) ≠ [] := by
      intro h
      have := sortDesc_length (docs.map (fun d => (f q d.text, d)))
      rw [h] at this
      simp at this
      exact hd (List.length_eq_zero.mp this.symm)
    split
    · next hkept =>
      intro h
      rw [List.map_eq_nil_iff] at h
      rcases List.take_eq_nil_iff.mp h with h | h
      · omega
      · exact hs h
    · next hkept =>
      intro h
      rw [List.map_eq_nil_iff] at h
      rcases List.take_eq_nil_iff.mp h with h | h
      · omega
      · exact hkept h

/-- C2: an absent reranker backend degrades to pass-through of the incoming
fused-score order; with any backend, a non-empty candidate set yields a
non-empty result of at most `top_k` documents; and whenever the hybrid
scoring stage of `retrieve` is non-empty, internal-mode `retrieve` returns
a success (no `answer` key) with between 1 and `top_k` documents. -/
theorem rerank_never_empty_spec :
    (∀ (q : Str) (docs : List Doc) (k : Nat),
      rerank_documents none q docs k = docs.take k) ∧
    (∀ (scorer : Option (Str → Str → ℚ)) (q : Str) (docs : List Doc) (k : Nat),
      0 < k → docs ≠ [] →
      rerank_documents scorer q docs k ≠ [] ∧ (rerank_documents scorer q docs k).length ≤ k) ∧
    (∀ (env : Env) (docs : List Doc) (q : Str) (k : Nat) (r : ℚ), 0 < k →
      hybrid_score_documents env q (env.embed q) docs (k * 5) r ≠ [] →
      (retrieve env docs ("internal".data) q k r).answer = none ∧
      (retrieve env docs ("internal".data) q k r).documents ≠ [] ∧
      (retrieve env docs ("internal".data) q k r).documents.length ≤ k) := by
  refine ⟨fun q docs k => rfl, ?_, ?_⟩
  · intro scorer q docs k hk hd
    exact ⟨rerank_documents_ne_nil scorer q docs k hk hd, rerank_documents_length_le scorer q docs k⟩
  · intro env docs q k r hk hscored
    have hd : docs ≠ [] := by
      intro h
      subst h
      exact hscored rfl
    have hcand : (hybrid_score_documents env q (env.embed q) docs (k * 5) r).map
        (fun p => p.2) ≠ [] := by
      intro h
      exact hscored (List.map_eq_nil_iff.mp h)
    have hfd : finalDocs env docs q k r =
        (rerank_documents env.rrScore q
          ((hybrid_score_documents env q (env.embed q) docs (k * 5) r).map (fun p => p.2)) k).map
          (fun d => ((0.99 : ℚ), d)) := by
      unfold finalDocs
      rw [if_neg hscored]
    have hrr := rerank_documents_ne_nil env.rrScore q
      ((hybrid_score_documents env q (env.embed q) docs (k * 5) r).map (fun p => p.2)) k hk hcand
    have hfdne : finalDocs env docs q k r ≠ [] := by
      rw [hfd]
      intro h
      exact hrr (List.map_eq_nil_iff.mp h)
    have hint : retrieve env docs ("internal".data) q k r = mkSuccess (finalDocs env docs q k r) := by
      unfold retrieve
      rw [if_neg hd]
      dsimp only
      rw [if_neg (by decide), if_neg hfdne]
    rw [hint]
    refine ⟨rfl, ?_, ?_⟩
    · show (finalDocs env docs q k r).map (fun p => (p.2.text, p.2.metadata)) ≠ []
      intro h
      exact hfdne (List.map_eq_nil_iff.mp h)
    · show ((finalDocs env docs q k r).map (fun p => (p.2.text, p.2.metadata))).length ≤ k
      rw [List.length_map, hfd, List.length_map]
      exact rerank_documents_length_le _ _ _ _

/-- C2 witness: a one-document store whose single candidate survives
hybrid scoring yields an internal-mode success of at most 3 documents. -/
theorem rerank_never_empty_spec_witness :
    (retrieve {} [bareVecDoc] ("internal".data) ("q".data) 3 0).answer = none ∧
    (retrieve {} [bareVecDoc] ("internal".data) ("q".data) 3 0).documents ≠ [] ∧
    (retrieve {} [bareVecDoc] ("internal".data) ("q".data) 3 0).documents.length ≤ 3 :=
  rerank_never_empty_spec.2.2 {} [bareVecDoc] ("q".data) 3 0
    (by norm_num)
    (by
      unfold hybrid_score_documents combinedScores bmNormalizedScores
      norm_num [bareVecDoc, List.replicate, sortDesc, insertDesc, compute_keyword_score,
        extract_keywords, findallWordTokens, wordRuns, wordRunsAux, toLowerStr, fuse, listMax])

/-! ### Claim C3: customer-mode visibility policy -/

theorem is_public_true_iff (om : Option Metadata) :
    is_public om = true ↔
      ∃ m, om = some m ∧
        (m.public = true ∨ ∃ src, m.source = some src ∧ src ∈ PUBLIC_SOURCES) := by
  cases om with
  | none => simp [is_public]
  | some m =>
    simp only [is_public]
    by_cases hp : m.public
    · simp [hp]
    · cases hs : m.source with
      | none => simp [hp, hs]
      | some src => simp [hp, hs]

/-- C3: for identical query, `top_k` and `min_relevance`, every document of
customer-mode `retrieve` also appears in internal-mode `retrieve`; every
customer-mode document carries metadata that is public or has an
allowlisted source; and when the public filter leaves no documents the
customer-mode response is the explicit "Insufficient public sources
available." answer with empty contexts and citations. -/
theorem customer_mode_subset_and_policy :
    ∀ (env : Env) (docs : List Doc) (q : Str) (k : Nat) (r : ℚ),
    (∀ p ∈ (retrieve env docs ("customer".data) q k r).documents,
      p ∈ (retrieve env docs ("internal".data) q k r).documents) ∧
    (∀ p ∈ (retrieve env docs ("customer".data) q k r).documents,
      ∃ m, p.2 = some m ∧
        (m.public = true ∨ ∃ src, m.source = some src ∧ src ∈ PUBLIC_SOURCES)) ∧
    (docs ≠ [] →
      (finalDocs env docs q k r).filter (fun p => is_public p.2.metadata) = [] →
      retrieve env docs ("customer".data) q k r =
        { answer := some ("Insufficient public sources available.".data) }) := by
  intro env docs q k r
  by_cases hd : docs = []
  · subst hd
    refine ⟨?_, ?_, ?_⟩
    · intro p hp
      simp [retrieve] at hp
    · intro p hp
      simp [retrieve] at hp
    · intro h
      exact absurd rfl h
  · have hcust : retrieve env docs ("customer".data) q k r =
        (if (finalDocs env docs q k r).filter (fun p => is_public p.2.metadata) = [] then
          { answer := some ("Insufficient public sources available.".data) }
        else mkSuccess ((finalDocs env docs q k r).filter (fun p => is_public p.2.metadata))) := by
      unfold retrieve
      rw [if_neg hd]
      dsimp only
      rw [if_pos rfl]
    by_cases hs : (finalDocs env docs q k r).filter (fun p => is_public p.2.metadata) = []
    · rw [if_pos hs] at hcust
      refine ⟨?_, ?_, ?_⟩
      · intro p hp
        rw [hcust] at hp
        simp at hp
      · intro p hp
        rw [hcust] at hp
        simp at hp
      · intro _ _
        exact hcust
    · rw [if_neg hs] at hcust
      have hfdne : finalDocs env docs q k r ≠ [] := by
        intro h
        apply hs
        rw [h]
        rfl
      have hint : retrieve env docs ("internal".data) q k r =
          mkSuccess (finalDocs env docs q k r) := by
        unfold retrieve
        rw [if_neg hd]
        dsimp only
        rw [if_neg (by decide), if_neg hfdne]
      refine ⟨?_, ?_, ?_⟩
      · intro p hp
        rw [hcust] at hp
        rw [hint]
        simp only [mkSuccess, List.mem_map] at hp ⊢
        obtain ⟨x, hx, rfl⟩ := hp
        exact ⟨x, List.mem_of_mem_filter hx, rfl⟩
      · intro p hp
        rw [hcust] at hp
        simp only [mkSuccess, List.mem_map] at hp
        obtain ⟨x, hx, rfl⟩ := hp
        have hpub := List.of_mem_filter hx
        exact (is_public_true_iff x.2.metadata).mp hpub
      · intro _ h
        exact absurd h hs

/-- C3 witness: a store whose only document scores below the relevance
threshold yields the explicit insufficiency answer in customer mode. -/
theorem customer_mode_subset_and_policy_witness :
    retrieve {} [privateDoc] ("customer".data) ("q".data) 3 1 =
      { answer := some ("Insufficient public sources available.".data) } :=
  (customer_mode_subset_and_policy {} [privateDoc] ("q".data) 3 1).2.2 (by decide)
    (by
      unfold finalDocs hybrid_score_documents combinedScores bmNormalizedScores
      norm_num [privateDoc, List.replicate, sortDesc, insertDesc, compute_keyword_score,
        extract_keywords, findallWordTokens, wordRuns, wordRunsAux, toLowerStr, fuse, listMax])

/-! ### Claim C1: the deduplication gate -/

theorem handle_incoming_processed (env : Env) (st : HState) (msg : Message) :
    (handle_incoming_messages env st msg).processed =
      if msgKey msg.channel msg.ts ∈ st.processed then st.processed
      else msgKey msg.channel msg.ts :: st.processed := by
  unfold handle_incoming_messages
  split
  · rfl
  · split <;> rfl

theorem handle_incoming_skip_mem (env : Env) (st : HState) (msg : Message)
    (h : msgKey msg.channel msg.ts ∈ st.processed) :
    handle_incoming_messages env st msg = st := by
  unfold handle_incoming_messages
  rw [if_pos h]

theorem handle_incoming_mem_processed (env : Env) (st : HState) (msg : Message) :
    msgKey msg.channel msg.ts ∈ (handle_incoming_messages env st msg).processed := by
  rw [handle_incoming_processed]
  split
  · assumption
  · exact List.mem_cons_self _ _

/-- C1: the dedup gate of `handle_incoming_messages`.  A key already in the
in-process set is skipped with no change at all; a store hit on the key's
timestamp is skipped with only the in-process backfill; after any call the
key is in the in-process set, and the set's contents are independent of
every collaborator (in particular of the classification and embedding
oracles, which therefore run only after the key is marked); consequently
re-delivering the same event any number of times changes nothing after the
first call — exactly one item-set is ever persisted for the key. -/
theorem dedup_gate_exactly_once :
    ∀ (env : Env) (st : HState) (msg : Message),
    (msgKey msg.channel msg.ts ∈ st.processed → handle_incoming_messages env st msg = st) ∧
    (msgKey msg.channel msg.ts ∉ st.processed → env.dbUp = true →
      (0 < st.knowledge.countP (hasTs msg.ts) ∨ 0 < st.ideas.countP (hasThreadTs msg.ts)) →
      handle_incoming_messages env st msg =
        { st with processed := msgKey msg.channel msg.ts :: st.processed }) ∧
    msgKey msg.channel msg.ts ∈ (handle_incoming_messages env st msg).processed ∧
    (∀ env2 : Env,
      (handle_incoming_messages env2 st msg).processed =
      (handle_incoming_messages env st msg).processed) ∧
    handle_incoming_messages env (handle_incoming_messages env st msg) msg =
      handle_incoming_messages env st msg ∧
    (∀ n : Nat,
      (fun s => handle_incoming_messages env s msg)^[n] (handle_incoming_messages env st msg) =
        handle_incoming_messages env st msg) := by
  intro env st msg
  refine ⟨?_, ?_, handle_incoming_mem_processed env st msg, ?_, ?_, ?_⟩
  · exact handle_incoming_skip_mem env st msg
  · intro hmem hdb hhit
    unfold handle_incoming_messages
    rw [if_neg hmem]
    have hcond : (env.dbUp && (decide (0 < st.knowledge.countP (hasTs msg.ts)) ||
        decide (0 < st.ideas.countP (hasThreadTs msg.ts)))) = true := by
      rw [hdb]
      rcases hhit with h | h <;> simp [h]
    rw [if_pos hcond]
  · intro env2
    rw [handle_incoming_processed, handle_incoming_processed]
  · exact handle_incoming_skip_mem env _ msg (handle_incoming_mem_processed env st msg)
  · intro n
    induction n with
    | zero => rfl
    | succ m ih =>
      rw [Function.iterate_succ_apply]
      have hfix : handle_incoming_messages env (handle_incoming_messages env st msg) msg =
          handle_incoming_messages env st msg :=
        handle_incoming_skip_mem env _ msg (handle_incoming_mem_processed env st msg)
      rw [hfix]
      exact ih

/-- C1 witness: a first event whose timestamp already matches a stored
knowledge item is skipped with only the in-process backfill. -/
theorem dedup_gate_exactly_once_witness :
    handle_incoming_messages {} dedupHitState dedupMsg =
      { dedupHitState with
          processed := msgKey dedupMsg.channel dedupMsg.ts :: dedupHitState.processed } :=
  (dedup_gate_exactly_once {} dedupHitState dedupMsg).2.1
    (by decide) (by decide) (Or.inl (by decide))

/-! ### Claim C10: the force-store override -/

theorem push_route_result (env : Env) (st : HState) (msg : Message)
    (hdb : env.dbUp = true)
    (hmem : msgKey msg.channel msg.ts ∉ st.processed)
    (hk : st.knowledge.countP (hasTs msg.ts) = 0)
    (hi : st.ideas.countP (hasThreadTs msg.ts) = 0)
    (hat : containsSub msg.text ("@aiOS".data) = true)
    (hpush : containsSub msg.text (":PUSH".data) = true) :
    handle_incoming_messages env st msg =
      { st with processed := msgKey msg.channel msg.ts :: st.processed,
                knowledge := st.knowledge ++ [pushItem env msg.user msg.ts msg.text] } := by
  unfold handle_incoming_messages
  rw [if_neg hmem]
  have hcond : (env.dbUp && (decide (0 < st.knowledge.countP (hasTs msg.ts)) ||
      decide (0 < st.ideas.countP (hasThreadTs msg.ts)))) = false := by
    rw [hk, hi]
    simp
  rw [hcond]
  simp only [Bool.false_eq_true, if_false]
  unfold routeMessage
  have him : isMention env.botUserId msg.text = true := by
    unfold isMention
    rw [hat]
    simp
  rw [him]
  simp only [if_true]
  rw [hpush]
  simp only [if_true, hdb]

/-- C10: an accepted `:PUSH` override inserts exactly one knowledge item
whose metadata carries source `"mention_push"`, `source_of_truth = true`
and `public = true` — hence eligible for customer-mode disclosure — while
the ideas collection is untouched, and the whole call is independent of
the classification backend. -/
theorem push_override_public (env : Env) (st : HState) (msg : Message)
    (hdb : env.dbUp = true)
    (hmem : msgKey msg.channel msg.ts ∉ st.processed)
    (hk : st.knowledge.countP (hasTs msg.ts) = 0)
    (hi : st.ideas.countP (hasThreadTs msg.ts) = 0)
    (hat : containsSub msg.text ("@aiOS".data) = true)
    (hpush : containsSub msg.text (":PUSH".data) = true) :
    (handle_incoming_messages env st msg).knowledge =
      st.knowledge ++ [pushItem env msg.user msg.ts msg.text] ∧
    (handle_incoming_messages env st msg).ideas = st.ideas ∧
    (pushItem env msg.user msg.ts msg.text).metadata = some
      { source := some ("mention_push".data), user := some (env.username msg.user),
        ts := some msg.ts, source_of_truth := true, public := true } ∧
    is_public (pushItem env msg.user msg.ts msg.text).metadata = true ∧
    (∀ gen, handle_incoming_messages { env with mlx := gen } st msg =
      handle_incoming_messages env st msg) := by
  have h1 := push_route_result env st msg hdb hmem hk hi hat hpush
  refine ⟨by rw [h1], by rw [h1], rfl, rfl, ?_⟩
  intro gen
  have h2 := push_route_result { env with mlx := gen } st msg hdb hmem hk hi hat hpush
  rw [h1, h2]
  rfl

/-- C10 witness: the override applied to a concrete mention message. -/
theorem push_override_public_witness :
    (handle_incoming_messages {} {} pushMsg).knowledge =
      [] ++ [pushItem {} pushMsg.user pushMsg.ts pushMsg.text] ∧
    (handle_incoming_messages {} {} pushMsg).ideas = [] ∧
    (pushItem {} pushMsg.user pushMsg.ts pushMsg.text).metadata = some
      { source := some ("mention_push".data),
        user := some (Env.username {} pushMsg.user),
        ts := some pushMsg.ts, source_of_truth := true, public := true } ∧
    is_public (pushItem {} pushMsg.user pushMsg.ts pushMsg.text).metadata = true ∧
    (∀ gen, handle_incoming_messages { ({} : Env) with mlx := gen } {} pushMsg =
      handle_incoming_messages {} {} pushMsg) :=
  push_override_public {} {} pushMsg rfl (by decide) (by decide) (by decide)
    (by decide) (by decide)

/-! ### Claim C4: message deletion -/

/-- C4 (failing input): `handle_message_deletion` issues `delete_one`, so
deleting a message whose file ingestion stored two chunks under the same
timestamp removes only the first chunk — an item keyed to the deleted
timestamp survives in the knowledge collection. -/
theorem deletion_leaves_second_chunk :
    (handle_message_deletion {} twoChunkState (some ("111.222".data))).knowledge = [fileChunkB] ∧
    hasTs ("111.222".data) fileChunkB = true := by
  constructor
  · rfl
  · decide

/-! ### Claim C5: a thread edit replaces the stored chunk-set -/

/-- The re-chunked current thread seen by the ideas branch of
`handle_message_edit` (the thread fetch falls back to the edited message
itself when the Slack API call fails). -/
def editChunks (env : Env) (channel ts text : Str) (user : Option Str) : List Str :=
  chunk_slack_thread ((env.threadMessages channel ts).getD [{ user := user, text := text }])

/-- The chunk items the ideas branch of `handle_message_edit` inserts:
the non-`NOISE` re-chunked thread, keyed by the thread key. -/
def editInserts (env : Env) (channel ts text : Str) (user : Option Str) : List Doc :=
  ((editChunks env channel ts text user).filter
    (fun c => !(classifyOf env c = Classification.NOISE))).map (ideaChunkItem env ts)

theorem hasThreadTs_unique {t1 t2 : Str} {d : Doc}
    (h1 : hasThreadTs t1 d = true) (h2 : hasThreadTs t2 d = true) : t1 = t2 := by
  unfold hasThreadTs at h1 h2
  cases hm : d.metadata with
  | none => rw [hm] at h1; cases h1
  | some m =>
    rw [hm] at h1 h2
    simp only [decide_eq_true_eq] at h1 h2
    rw [h1] at h2
    exact Option.some_injective _ h2

/-- C5: when an edit event touches a message whose timestamp is the key of
a stored ideas thread, the handler's result holds, for that key, exactly
the freshly re-chunked thread: all previously stored chunks with the key
are deleted and the non-`NOISE` chunks of the current thread are inserted
(delete-then-insert, no partial patch); no old chunk survives; the stored
chunks of every other thread key are unchanged; and when every chunk
classifies non-`NOISE` the inserted set is exactly the re-chunked thread. -/
theorem thread_edit_full_replacement (env : Env) (st : HState) (channel ts text : Str)
    (user : Option Str) (threadTsField : Option Str)
    (hdb : env.dbUp = true)
    (hic : 0 < st.ideas.countP (hasThreadTs ts))
    (hfield : threadTsField = none ∨ threadTsField = some ts) :
    (handle_message_edit env st channel ts text user threadTsField).ideas =
      st.ideas.filter (fun d => !(hasThreadTs ts d)) ++ editInserts env channel ts text user ∧
    (∀ d ∈ (handle_message_edit env st channel ts text user threadTsField).ideas,
      hasThreadTs ts d = true → d ∈ editInserts env channel ts text user) ∧
    (∀ t2, t2 ≠ ts →
      ((handle_message_edit env st channel ts text user threadTsField).ideas).filter
          (hasThreadTs t2) =
        st.ideas.filter (hasThreadTs t2)) ∧
    ((∀ c ∈ editChunks env channel ts text user, ¬ (classifyOf env c = Classification.NOISE)) →
      editInserts env channel ts text user =
        (editChunks env channel ts text user).map (ideaChunkItem env ts)) := by
  have hcond : ¬ (st.knowledge.countP (hasTs ts) = 0 ∧ st.ideas.countP (hasThreadTs ts) = 0) := by
    intro hco
    omega
  have heq : (handle_message_edit env st channel ts text user threadTsField).ideas =
      st.ideas.filter (fun d => !(hasThreadTs ts d)) ++ editInserts env channel ts text user := by
    unfold handle_message_edit
    rw [if_pos hdb]
    dsimp only
    rw [if_neg hcond, if_pos hic]
    have hthread : threadTsField.getD ts = ts := by
      rcases hfield with rfl | rfl <;> rfl
    rw [hthread]
    have hst1 : (if 0 < st.knowledge.countP (hasTs ts) then
        { st with processed := st.processed.erase (msgKey channel ts),
                  knowledge := st.knowledge.filterMap (editKnowledgeEntry env ts text) }
      else { st with processed := st.processed.erase (msgKey channel ts) }).ideas = st.ideas := by
      split <;> rfl
    rw [hst1]
    rfl
  refine ⟨heq, ?_, ?_, ?_⟩
  · intro d hd hts
    rw [heq] at hd
    rcases List.mem_append.mp hd with h | h
    · have hneg := List.of_mem_filter h
      rw [hts] at hneg
      simp at hneg
    · exact h
  · intro t2 ht2
    rw [heq, List.filter_append]
    have h1 : (editInserts env channel ts text user).filter (hasThreadTs t2) = [] := by
      apply List.filter_eq_nil_iff.mpr
      intro d hd
      unfold editInserts at hd
      simp only [List.mem_map] at hd
      obtain ⟨c, _, rfl⟩ := hd
      simp only [hasThreadTs, ideaChunkItem, decide_eq_true_eq, Option.some.injEq]
      intro hc
      exact ht2 hc.symm
    rw [h1, List.append_nil, List.filter_filter]
    apply List.filter_congr
    intro d _
    cases h : hasThreadTs t2 d
    · simp
    · simp only [Bool.true_and]
      cases h2 : hasThreadTs ts d
      · rfl
      · exact absurd (hasThreadTs_unique h h2) ht2
  · intro hall
    unfold editInserts
    rw [List.filter_eq_self.mpr]
    intro c hc
    simp [hall c hc]

/-- C5 witness: editing the parent message of the stored example thread
replaces the thread's chunk-set. -/
theorem thread_edit_full_replacement_witness :
    (handle_message_edit {} editState CH_ideas ideaTs ("hi".data) none none).ideas =
      editState.ideas.filter (fun d => !(hasThreadTs ideaTs d)) ++
        editInserts {} CH_ideas ideaTs ("hi".data) none :=
  (thread_edit_full_replacement {} editState CH_ideas ideaTs ("hi".data) none none
    rfl (by decide) (Or.inl rfl)).1

/-! ### Claim C8: the deterministic classification fallback -/

/-- C8 counterexample: with the model backend unavailable, the spec's
example text does not classify as `BUG` (it contains none of the fallback
bug keywords and is 8 words long, so the fallback yields `NOISE`). -/
theorem fallback_deploy_not_bug :
    ¬ (classifyOf {} deployText = Classification.BUG) := by decide

/-- C8 amended: the fallback classifier applies the ordered keyword-set
checks (bug, then idea, then feedback), then the `> 20` words length
heuristic for `DOCUMENT`, else `NOISE`; the model-absent path of
`analyze_text_with_mlx` is exactly this fallback; and the example text
"Deploy script fails with permission denied on /var/log" classifies as
`NOISE` under it, not `BUG`. -/
theorem fallback_classification_order :
    (∀ t, BUG_KEYWORDS.any (fun kw => containsSub (toLowerStr t) kw) = true →
      fallbackClassify t = Classification.BUG) ∧
    (∀ t, BUG_KEYWORDS.any (fun kw => containsSub (toLowerStr t) kw) = false →
      IDEA_KEYWORDS.any (fun kw => containsSub (toLowerStr t) kw) = true →
      fallbackClassify t = Classification.IDEA) ∧
    (∀ t, BUG_KEYWORDS.any (fun kw => containsSub (toLowerStr t) kw) = false →
      IDEA_KEYWORDS.any (fun kw => containsSub (toLowerStr t) kw) = false →
      FEEDBACK_KEYWORDS.any (fun kw => containsSub (toLowerStr t) kw) = true →
      fallbackClassify t = Classification.FEEDBACK) ∧
    (∀ t, BUG_KEYWORDS.any (fun kw => containsSub (toLowerStr t) kw) = false →
      IDEA_KEYWORDS.any (fun kw => containsSub (toLowerStr t) kw) = false →
      FEEDBACK_KEYWORDS.any (fun kw => containsSub (toLowerStr t) kw) = false →
      20 < (pySplitWhitespace t).length →
      fallbackClassify t = Classification.DOCUMENT) ∧
    (∀ t, BUG_KEYWORDS.any (fun kw => containsSub (toLowerStr t) kw) = false →
      IDEA_KEYWORDS.any (fun kw => containsSub (toLowerStr t) kw) = false →
      FEEDBACK_KEYWORDS.any (fun kw => containsSub (toLowerStr t) kw) = false →
      (pySplitWhitespace t).length ≤ 20 →
      fallbackClassify t = Classification.NOISE) ∧
    (∀ env : Env, env.mlx = none → ∀ t, classifyOf env t = fallbackClassify t) ∧
    classifyOf {} deployText = Classification.NOISE := by
  refine ⟨?_, ?_, ?_, ?_, ?_, ?_, by decide⟩
  · intro t h
    simp [fallbackClassify, h]
  · intro t h1 h2
    simp [fallbackClassify, h1, h2]
  · intro t h1 h2 h3
    simp [fallbackClassify, h1, h2, h3]
  · intro t h1 h2 h3 h4
    simp [fallbackClassify, h1, h2, h3, h4]
  · intro t h1 h2 h3 h4
    simp [fallbackClassify, h1, h2, h3, Nat.not_lt.mpr h4]
  · intro env henv t
    unfold classifyOf analyze_text_with_mlx
    rw [henv]

/-- C8 amended witness: a text containing a bug keyword classifies `BUG`
under the fallback. -/
theorem fallback_classification_order_witness :
    fallbackClassify ("found a bug in prod".data) = Classification.BUG :=
  fallback_classification_order.1 ("found a bug in prod".data) (by decide)

end Brainfish
